import Mathlib

/-!
Verification of the gwr marshaled-source engine, buffers, and RESP codec.

Shallow embedding of the Go sources:
  * `multi_error.go`             — `MultiErr.AsError`
  * `internal/protocol/chan_buf.go` — `chanBuf` (Write / drain / Reset)
  * `protocol/item_buf.go`       — `itemBuf` (HandleItem / HandleItems / drain)
  * `internal/marshaled/watcher.go` — `marshaledWatcher.emit` / `emitBatch`,
    `defaultFrameWatcher.writeToAll` (subscriber fan-out and eviction)
  * the `package marshaled` `DataSource` (`unnamed/part_024`: NewDataSource,
    Get, Watch, WatchItems, startWatching, Drain, HandleItem, HandleItems)
  * `internal/resp/connection.go`   — RESP reader / writer operations

Go maps are modelled as association lists, Go slices as `List`, `uint` as
`Nat` with explicit `% 2^64`, `int` as `Int` within the int64 range, and
fallible operations return `Option` / explicit result sums.
-/

namespace Gwr

/-! ### MultiErr (src/multi_error.go) -/

/-- Outcome of `MultiErr.AsError`.  A Go slice index out of range is
modelled as `.panic`. -/
inductive AsErrorResult (ε : Type) where
  | none
  | one (e : ε)
  | multi (es : List ε)
  | panic
deriving DecidableEq, Repr

/-- Shallow embedding of `MultiErr.AsError` (src/multi_error.go:25-34):
switch on `len(mienErrs)`; case 0 returns nil; case 1 returns
`mienErrs[1]` (an out-of-range index on a one-element slice, hence a
run-time panic); default returns the aggregate itself. -/
def multiErrAsError {ε : Type} (mienErrs : List ε) : AsErrorResult ε :=
  match mienErrs with
  | [] => .none
  | [_] =>
    match mienErrs[1]? with
    | Option.some e => .one e
    | Option.none => .panic
  | es => .multi es

/-! ### Chunk buffer (src/internal/protocol/chan_buf.go) -/

/-- State of a `chanBuf`: the embedded `bytes.Buffer` contents, the
closed and pending flags, and the reusable scratch slice `p`.  The
ready channel itself is external; sends on it are reported by the
operations below. -/
structure ChanBuf where
  buffer : List UInt8
  closed : Bool
  pending : Bool
  p : List UInt8
deriving DecidableEq, Repr

/-- Result of one `chanBuf.Write` call: the successor state, whether a
reference was sent on the ready channel, the returned byte count `n`,
and whether `errBufClosed` was returned. -/
structure ChanBufWriteResult where
  state : ChanBuf
  sent : Bool
  n : Nat
  errClosed : Bool
deriving DecidableEq, Repr

/-- `chanBuf.Write` (chan_buf.go:47-67): under the lock, return
`errBufClosed` if closed; otherwise append `p` to the embedded buffer;
if bytes were added (`n > 0`) and the buffer was not already pending,
set pending and — after releasing the lock — send the buffer reference
on the ready channel. -/
def chanBufWrite (cb : ChanBuf) (p : List UInt8) : ChanBufWriteResult :=
  if cb.closed then ⟨cb, false, 0, true⟩
  else if 0 < p.length ∧ ¬cb.pending then
    ⟨{ cb with buffer := cb.buffer ++ p, pending := true }, true, p.length, false⟩
  else
    ⟨{ cb with buffer := cb.buffer ++ p }, false, p.length, false⟩

/-- A sequence of `Write` calls: the final state and the total number of
ready notifications sent (none of them consumed by a drain). -/
def chanBufWriteAll (cb : ChanBuf) : List (List UInt8) → ChanBuf × Nat
  | [] => (cb, 0)
  | p :: ps =>
    let r := chanBufWrite cb p
    let rest := chanBufWriteAll r.state ps
    (rest.1, (if r.sent then 1 else 0) + rest.2)

/-- `chanBuf.drain` (chan_buf.go:82-93): under the lock, grow the
scratch slice to hold the contents if needed, copy the contents into it
(`n = copy(...)` copies exactly `Len()` bytes), truncate the scratch to
`n`, and `Reset` (chan_buf.go:42-45) the embedded buffer, which clears
the pending flag.  Returns the scratch slice. -/
def chanBufDrain (cb : ChanBuf) : List UInt8 × ChanBuf :=
  (cb.buffer, { cb with buffer := [], pending := false, p := cb.buffer })

/-! ### Item buffer (src/protocol/item_buf.go) -/

/-- State of an `itemBuf`.  The Go struct declares a `pending` field but
no code ever reads or writes it; it is carried here for fidelity. -/
structure ItemBuf where
  closed : Bool
  pending : Bool
  buffer : List (List UInt8)
  takeBuf : List (List UInt8)
deriving DecidableEq, Repr

/-- `newItemBuf` (item_buf.go): zero value apart from the ready channel. -/
def newItemBuf : ItemBuf := ⟨false, false, [], []⟩

/-- Result of `itemBuf.HandleItem` / `HandleItems`: successor state,
whether a ready notification was sent, and whether `errItemBufClosed`
was returned. -/
structure ItemBufPutResult where
  state : ItemBuf
  sent : Bool
  errClosed : Bool
deriving DecidableEq, Repr

/-- `itemBuf.put` plus the send step of `HandleItem` / `HandleItems`
(item_buf.go:32-58): under the lock, if closed return
`errItemBufClosed` with `n = 0`; otherwise append the items and return
`n = len(items)`.  After unlocking, send on the ready channel iff
`n > 0`.  No pending flag is consulted, so every item-adding call
sends.  `HandleItem item` is this function at the one-element list. -/
def itemBufHandle (ib : ItemBuf) (items : List (List UInt8)) : ItemBufPutResult :=
  if ib.closed then ⟨ib, false, true⟩
  else ⟨{ ib with buffer := ib.buffer ++ items }, decide (0 < items.length), false⟩

/-- `itemBuf.drain` (item_buf.go:60-66): swap the contents into the
reusable take slice, empty the buffer, return the take slice.  The
pending flag is not touched. -/
def itemBufDrain (ib : ItemBuf) : List (List UInt8) × ItemBuf :=
  (ib.buffer, { ib with takeBuf := ib.buffer, buffer := [] })

/-! ### Subscriber fan-out (src/internal/marshaled/watcher.go) -/

/-- The failure-collection loop of `emit` / `emitBatch` / `writeToAll`:
deliver to each subscriber in index order and record the indices whose
delivery returned an error.  `fails i` says whether subscriber `i`'s
delivery fails for this item. -/
def collectFailed (n : Nat) (fails : Nat → Bool) : List Nat :=
  (List.range n).filter fun i => fails i

/-- The survivor-rebuild loop shared by `marshaledWatcher.emit`
(watcher.go:116-143), `marshaledWatcher.emitBatch` (watcher.go:174-197)
and `defaultFrameWatcher.writeToAll` (watcher.go:270-314): walk the
original list by index `i`; append the element to `okay` unless `i`
equals the head of the pending failure list; once `i` reaches that
head, pop it, and when the failure list empties, append the rest of the
original list and stop.  The `[]` match inside the loop corresponds to
the Go expression `failed[0]` on an empty slice (a panic); it is never
reached from `emitResult` below. -/
def rebuildGo {α : Type} (all : List α) (i : Nat) (failed : List Nat) (okay : List α) :
    List α :=
  if h : i < all.length then
    match failed with
    | [] => okay
    | f :: fs =>
      let okay' := if i ≠ f then okay ++ [all.get ⟨i, h⟩] else okay
      if f ≤ i then
        match fs with
        | [] => okay' ++ all.drop (i + 1)
        | _ => rebuildGo all (i + 1) fs okay'
      else rebuildGo all (i + 1) (f :: fs) okay'
  else okay
termination_by all.length - i

/-- Result of one `emit` call: the indices the serialized bytes were
handed to, the rebuilt subscriber list, and the boolean return value. -/
structure EmitResult (α : Type) where
  delivered : List Nat
  watchers : List α
  ret : Bool
deriving DecidableEq, Repr

/-- `marshaledWatcher.emit` (watcher.go:97-143), parametrised by the
marshal outcome and by which subscribers' `HandleItem` call fails.
With no subscribers, or a marshaling error, return false with the list
unchanged.  Otherwise hand the serialized bytes to every subscriber in
order; with no failures return true; otherwise run the rebuild loop and
return whether any subscriber remains.  `emitBatch` (watcher.go:146-197)
and `defaultFrameWatcher.writeToAll` (watcher.go:270-314) follow the
same skeleton over the same rebuild loop. -/
def emitResult {α : Type} (watchers : List α) (marshalOk : Bool) (fails : Nat → Bool) :
    EmitResult α :=
  if watchers.length = 0 then ⟨[], watchers, false⟩
  else if ¬marshalOk then ⟨[], watchers, false⟩
  else
    let failed := collectFailed watchers.length fails
    if failed.length = 0 then ⟨List.range watchers.length, watchers, true⟩
    else
      let okay := rebuildGo watchers 0 failed []
      ⟨List.range watchers.length, okay, okay.length != 0⟩

/-- `defaultFrameWatcher.writeToAll` (watcher.go:270-314): write the
framed bytes to every writer; rebuild the writer list omitting the
failed ones; return the `errDefaultFrameWatcherDone` sentinel (modelled
as `true`) iff no writer remains. -/
def writeToAll {α : Type} (writers : List α) (fails : Nat → Bool) : List α × Bool :=
  let failed := collectFailed writers.length fails
  if failed.length = 0 then (writers, false)
  else
    let okay := rebuildGo writers 0 failed []
    (okay, okay.length == 0)

/-- Reference formulation of the survivors: the subscribers whose
delivery did not fail, kept in their original order.  `i` is the index
of the head of `l` in the original list. -/
def survivorsAux {α : Type} (fails : Nat → Bool) : Nat → List α → List α
  | _, [] => []
  | i, x :: xs =>
    if fails i then survivorsAux fails (i + 1) xs
    else x :: survivorsAux fails (i + 1) xs

/-- The non-failed subscribers of the whole list, in original order. -/
def survivors {α : Type} (watchers : List α) (fails : Nat → Bool) : List α :=
  survivorsAux fails 0 watchers

/-! ### Marshaled DataSource (src/unnamed/part_024, `package marshaled`) -/

/-- Go's `strings.ToLower` restricted to its ASCII action (the format
names the program uses are ASCII): map bytes in `'A'..'Z'` to their
lowercase counterparts. -/
def goToLower (s : String) : String :=
  String.mk (s.data.map fun c =>
    if 65 ≤ c.toNat ∧ c.toNat ≤ 90 then Char.ofNat (c.toNat + 32) else c)

/-- Go map assignment `m[k] = v` on an association list: replace the
binding if the key is present, else add it. -/
def mapSet {β : Type} : List (String × β) → String → β → List (String × β)
  | [], k, v => [(k, v)]
  | p :: ps, k, v => if p.1 = k then (k, v) :: ps else p :: mapSet ps k v

/-- A codec value of the format map: either a caller- or source-supplied
`GenericDataFormat`, or one of the three built-ins installed by
`NewDataSource`. -/
inductive FormatCodec (φ : Type) where
  | supplied (f : φ)
  | ldjson
  | templated
  | stringIt
deriving DecidableEq, Repr

/-- The starting format map of `NewDataSource` (part_024:88-98): the
caller's map (nil becomes empty) overlaid by the source-defined
formats.  Codec values are never nil, so Go's `formats[k] == nil` test
is key absence. -/
def buildFormatsBase {φ : Type} (supplied sourceFormats : List (String × φ)) :
    List (String × FormatCodec φ) :=
  sourceFormats.foldl (fun m p => mapSet m p.1 (FormatCodec.supplied p.2))
    (supplied.foldl (fun m p => mapSet m p.1 (FormatCodec.supplied p.2)) [])

/-- `NewDataSource` (part_024:100-103): install `LDJSONMarshal` under
"json" when absent. -/
def withJsonFormat {φ : Type} (m : List (String × FormatCodec φ)) :
    List (String × FormatCodec φ) :=
  if (m.lookup "json").isSome then m else mapSet m "json" FormatCodec.ldjson

/-- `NewDataSource` (part_024:105-112): install the templated marshal
under "text" when absent and the source has a text template. -/
def withTemplatedText {φ : Type} (m : List (String × FormatCodec φ))
    (hasTextTemplate : Bool) : List (String × FormatCodec φ) :=
  if (m.lookup "text").isSome then m
  else if hasTextTemplate then mapSet m "text" FormatCodec.templated else m

/-- `NewDataSource` (part_024:114-117): install the `stringIt` fallback
when "text" is still absent. -/
def withStringText {φ : Type} (m : List (String × FormatCodec φ)) :
    List (String × FormatCodec φ) :=
  if (m.lookup "text").isSome then m else mapSet m "text" FormatCodec.stringIt

/-- `NewDataSource` (part_024:105-117): both "text" installation steps. -/
def withTextFormat {φ : Type} (m : List (String × FormatCodec φ)) (hasTextTemplate : Bool) :
    List (String × FormatCodec φ) :=
  withStringText (withTemplatedText m hasTextTemplate)

/-- The full format-map construction of `NewDataSource` (part_024:83-142). -/
def buildFormats {φ : Type} (supplied : List (String × φ))
    (sourceFormats : List (String × φ)) (hasTextTemplate : Bool) :
    List (String × FormatCodec φ) :=
  withTextFormat (withJsonFormat (buildFormatsBase supplied sourceFormats)) hasTextTemplate

/-- `ds.formatNames`: the format-map keys, sorted (part_024:131-135). -/
def formatNames {φ : Type} (formats : List (String × FormatCodec φ)) : List String :=
  (formats.map Prod.fst).mergeSort (fun a b => a ≤ b)

/-- The errors `DataSource.Get` can surface. -/
inductive GwrGetError (ε : Type) where
  | errNotGetable
  | errUnsupportedFormat
  | codec (e : ε)
  | write (e : ε)
deriving DecidableEq, Repr

/-- Outcome of `DataSource.Get`: the returned error, if any, and the
sequence of `Write` calls issued on the writer. -/
structure GetOutcome (ε : Type) where
  err : Option (GwrGetError ε)
  writes : List (List UInt8)
deriving DecidableEq, Repr

/-- `DataSource.Get` (part_024:171-187): `ErrNotGetable` when the
wrapped source has no getter; look the format up under the lowercased
name, `ErrUnsupportedFormat` when absent; marshal the snapshot with the
format's `MarshalGet`, returning a marshal error as-is; otherwise issue
exactly one `Write` of the marshaled bytes and return its error.
`getSource` carries the snapshot value when the source is getable,
`marshalGet` the codec action, `write` the writer's outcome. -/
def dsGet {ι φ ε : Type} (getSource : Option ι) (formats : List (String × φ))
    (marshalGet : φ → ι → Except ε (List UInt8))
    (write : List UInt8 → Option ε) (formatName : String) : GetOutcome ε :=
  match getSource with
  | none => ⟨some .errNotGetable, []⟩
  | some data =>
    match formats.lookup (goToLower formatName) with
    | none => ⟨some .errUnsupportedFormat, []⟩
    | some format =>
      match marshalGet format data with
      | .error e => ⟨some (.codec e), []⟩
      | .ok buf =>
        match write buf with
        | some e => ⟨some (.write e), [buf]⟩
        | none => ⟨none, [buf]⟩

/-- Default construction constants of `NewDataSource`
(part_024:124-128): channel capacities 100 items and 100 batches, and a
handoff wait of `100 * time.Microsecond`, here in nanoseconds. -/
def dsDefaultMaxItems : Nat := 100

/-- Default batch-channel capacity of `NewDataSource`. -/
def dsDefaultMaxBatches : Nat := 100

/-- Default handoff timeout of `NewDataSource`, in nanoseconds. -/
def dsDefaultMaxWaitNanos : Nat := 100 * 1000

/-! #### Activation state machine (part_024:192-265, 267-420)

`DataSource.Watch` / `WatchItems` (part_024:192-218, 224-250) read
`acted := !mds.active` under the watch-mutex, run the format lookup and
`watcher.init`, then `startWatching` (part_024:254-265) which flips the
active bit once; after releasing the mutex they call
`mds.actiSource.Activate()` iff no error occurred, `acted` was true, and
the wrapped source has the hook.  The pump goroutine
(part_024:296-363) clears the active bit and closes every subscriber
when a cycle leaves no format with subscribers; `Drain`
(part_024:267-294) and the `HandleItem(s)` timeout path do the same.
The machine below tracks the active flag, the total subscriber count
across formats, and the cumulative number of `Activate` invocations;
one event is one serialised occurrence of these operations. -/

/-- Activation-relevant state of a marshaled `DataSource`. -/
structure ActiveState where
  active : Bool
  subs : Nat
  activations : Nat
deriving DecidableEq, Repr

/-- One serialised operation on the activation state. -/
inductive WatchEvent where
  /-- a `Watch` / `WatchItems` call; `ok` = the format lookup and
  `watcher.init` succeeded -/
  | watch (ok : Bool)
  /-- a pump cycle after whose emits `survivors` subscribers remain
  (eviction removes, never adds, subscribers) -/
  | pumpEmit (survivors : Nat)
  /-- a `Drain` call or a `HandleItem(s)` handoff timeout -/
  | drain
deriving DecidableEq, Repr

/-- One step of the activation machine; `hasActi` says whether the
wrapped source implements the `Activate` hook. -/
def watchStep (hasActi : Bool) (s : ActiveState) : WatchEvent → ActiveState
  | .watch ok =>
    if ok then
      { active := true, subs := s.subs + 1,
        activations := s.activations + (if !s.active && hasActi then 1 else 0) }
    else s
  | .pumpEmit survivors =>
    if s.active then
      if min survivors s.subs = 0 then { s with active := false, subs := 0 }
      else { s with subs := min survivors s.subs }
    else s
  | .drain => { s with active := false, subs := 0 }

/-- A run of the activation machine. -/
def watchRun (hasActi : Bool) (s : ActiveState) (events : List WatchEvent) : ActiveState :=
  events.foldl (watchStep hasActi) s

/-- The state of a freshly constructed `DataSource`: inactive, no
subscribers, `Activate` never called. -/
def initWatchState : ActiveState := ⟨false, 0, 0⟩

/-! #### Handoff policy (part_024:376-396, 400-420) -/

/-- The `DataSource` state that `HandleItem` / `HandleItems` consult:
the active flag, whether the two handoff channels are non-nil, and the
per-format subscriber lists held by the marshaled watchers. -/
structure HandleState (σ : Type) where
  active : Bool
  itemChan : Bool
  itemsChan : Bool
  watchers : List (String × List σ)
deriving DecidableEq, Repr

/-- `DataSource.Active` (part_024:146-152): active flag set and both
handoff channels non-nil, read under the watch-mutex. -/
def dsActive {σ : Type} (s : HandleState σ) : Bool :=
  s.active && s.itemChan && s.itemsChan

/-- `DataSource.HandleItem` (part_024:376-396): return false if not
`Active()`; else try the handoff send — on success return true; on the
`maxWait` timeout, under the mutex re-check the active flag (returning
false if already cleared), clear it, and close every format's
subscribers (`marshaledWatcher.Close` empties each watcher list),
returning false.  `accepts` says whether the channel send wins the
select before the timeout.  `HandleItems` (part_024:400-420) is the
identical function on the batch channel. -/
def handleItem {σ : Type} (s : HandleState σ) (accepts : Bool) : HandleState σ × Bool :=
  if ¬dsActive s then (s, false)
  else if accepts then (s, true)
  else if ¬s.active then (s, false)
  else ({ s with active := false, watchers := s.watchers.map fun p => (p.1, []) }, false)

/-! ### RESP connection codec (src/internal/resp/connection.go)

The wire is modelled as a `List Char` of ASCII bytes.  Go's `uint` is
`Nat` with explicit `% 2 ^ 64`, `int` is `Int` with two's-complement
wrapping where the code can overflow. -/

/-- A RESP value as surfaced to a `RedisHandler`: simple string and
error payloads as handed to `HandleString` / `HandleError`, integers,
bulk-string payloads as read in full by the handler, nulls (negative
bulk or array length), and array headers. -/
inductive RValue where
  | str (payload : List Char)
  | err (payload : List Char)
  | int (n : Int)
  | bulk (payload : List Char)
  | null
  | arrayHeader (n : Int)
deriving DecidableEq, Repr

/-- The `\r\n` terminator. -/
def crlf : List Char := ['\r', '\n']

/-- Decimal digits of a natural number, most significant first, as
produced by Go's `%v` formatting. -/
def decimalChars (n : Nat) : List Char :=
  if n < 10 then [Char.ofNat (48 + n)]
  else decimalChars (n / 10) ++ [Char.ofNat (48 + n % 10)]
decreasing_by exact Nat.div_lt_self (by omega) (by omega)

/-- Go `%v` formatting of an `int`: a minus sign followed by the digits
of the magnitude for negatives, else the digits. -/
def intChars (n : Int) : List Char :=
  if n < 0 then '-' :: decimalChars n.natAbs else decimalChars n.toNat

/-- `WriteSimpleString` (connection.go:341-344): `+<str>\r\n`.
`WriteSimpleBytes` writes the same bytes. -/
def writeSimpleString (s : List Char) : List Char := '+' :: (s ++ crlf)

/-- `WriteErrorBytes` (connection.go:349-360): `-<bytes>\r\n`;
`WriteError` / `WriteErrorString` write `-<words>\r\n` likewise. -/
def writeErrorBytes (b : List Char) : List Char := '-' :: (b ++ crlf)

/-- `WriteInteger` (connection.go:276-278): `:<int>\r\n`. -/
def writeInteger (n : Int) : List Char := ':' :: (intChars n ++ crlf)

/-- `WriteNull` (connection.go:281-283): the `$-1\r\n` null bulk. -/
def writeNull : List Char := ['$', '-', '1', '\r', '\n']

/-- `WriteNullArray` (connection.go:286-288): the `*-1\r\n` null array. -/
def writeNullArray : List Char := ['*', '-', '1', '\r', '\n']

/-- `WriteArrayHeader` (connection.go:271-273): `*<num>\r\n`. -/
def writeArrayHeader (n : Int) : List Char := '*' :: (intChars n ++ crlf)

/-- `WriteBulkBytes` (connection.go:291-306): `$0\r\n\r\n` for the
empty slice, otherwise `$<len>\r\n<bytes>\r\n`.  `WriteBulkString`
(connection.go:333-339) writes the same bytes for a string. -/
def writeBulkBytes (b : List Char) : List Char :=
  if b.length = 0 then ['$', '0', '\r', '\n', '\r', '\n']
  else '$' :: (decimalChars b.length ++ crlf ++ b ++ crlf)

/-- `scanLine` (connection.go:254-269): `ReadBytes('\r')` — everything
up to and INCLUDING the first CR — then one byte that must be LF.
Returns the buffer (CR included) and the remaining input; `none` models
the read error or "missing LF after CR". -/
def scanLine : List Char → Option (List Char × List Char)
  | [] => none
  | c :: rest =>
    if c = '\r' then
      match rest with
      | '\n' :: r => some (['\r'], r)
      | _ => none
    else
      match scanLine rest with
      | some (buf, r) => some (c :: buf, r)
      | none => none

/-- `scanNumbers` (connection.go:233-251): accumulate
`n = 10*n + uint(c - '0')` over bytes until a CR (consumed).  The byte
subtraction wraps mod 256 and the `uint` accumulator mod `2 ^ 64`. -/
def scanNumbers (n : Nat) : List Char → Option (Nat × List Char)
  | [] => none
  | c :: rest =>
    if c = '\r' then some (n, rest)
    else scanNumbers ((10 * n + (c.toNat + 256 - 48) % 256) % 2 ^ 64) rest

/-- The single-byte LF check shared by `readInteger`'s tails. -/
def expectLF : List Char → Option (List Char)
  | '\n' :: r => some r
  | _ => none

/-- Go's reinterpretation `int(nu)` of a `uint64` as an `int64`. -/
def uintToInt64 (nu : Nat) : Int :=
  if nu < 2 ^ 63 then (nu : Int) else (nu : Int) - 2 ^ 64

/-- Two's-complement wrapping of an `Int` into the `int64` range, for
the negation in `readInteger` (overflow at `-minInt64`). -/
def int64Wrap (z : Int) : Int := (z + 2 ^ 63) % 2 ^ 64 - 2 ^ 63

/-- `readInteger` (connection.go:199-231): on `'-'` scan the magnitude
and negate (`n = -int(nu)`); on CR the value is 0; otherwise scan with
the first byte's digit value as the initial accumulator.  In each case
the byte after the scanned CR must be LF. -/
def readInteger : List Char → Option (Int × List Char)
  | [] => none
  | c :: rest =>
    if c = '-' then
      match scanNumbers 0 rest with
      | some (nu, r) =>
        match expectLF r with
        | some r2 => some (int64Wrap (-(uintToInt64 nu)), r2)
        | none => none
      | none => none
    else if c = '\r' then
      match expectLF rest with
      | some r2 => some (0, r2)
      | none => none
    else
      match scanNumbers ((c.toNat + 256 - 48) % 256) rest with
      | some (nu, r) =>
        match expectLF r with
        | some r2 => some (uintToInt64 nu, r2)
        | none => none
      | none => none

/-- The tail of `consumeBulkString` (connection.go:135-166) after the
length is read: negative length is the null bulk (`HandleNull`);
otherwise the handler reads exactly that many payload bytes
(`io.LimitReader` + `ReadFull`), and the connection then requires CR
and LF. -/
def consumeBulk (nr : Int × List Char) : Option (RValue × List Char) :=
  if nr.1 < 0 then some (RValue.null, nr.2)
  else if nr.2.length < nr.1.toNat then none
  else
    match nr.2.drop nr.1.toNat with
    | '\r' :: '\n' :: r2 => some (RValue.bulk (nr.2.take nr.1.toNat), r2)
    | _ => none

/-- The tail of `consumeArray` (connection.go:168-179): negative count
is the null array, else the header count is surfaced. -/
def consumeArrayHead (nr : Int × List Char) : Option (RValue × List Char) :=
  if nr.1 < 0 then some (RValue.null, nr.2) else some (RValue.arrayHeader nr.1, nr.2)

/-- `Consume` (connection.go:84-109) with the element consumers
(connection.go:111-179): dispatch on the tag byte; `-` and `+` scan a
line and surface its buffer (CR included); `:` reads an integer; `$`
and `*` read a length and continue with the bulk / array tails. -/
def consume : List Char → Option (RValue × List Char)
  | [] => none
  | c :: rest =>
    if c = '-' then (scanLine rest).map fun p => (RValue.err p.1, p.2)
    else if c = ':' then (readInteger rest).map fun p => (RValue.int p.1, p.2)
    else if c = '+' then (scanLine rest).map fun p => (RValue.str p.1, p.2)
    else if c = '$' then (readInteger rest).bind consumeBulk
    else if c = '*' then (readInteger rest).bind consumeArrayHead
    else none

/-- The pure decimal accumulator step, without overflow. -/
def stepPure (a : Nat) (c : Char) : Nat := 10 * a + (c.toNat - 48)

/-- When no index of the window fails, every element survives. -/
theorem survivorsAux_all_ok {α : Type} (fails : Nat → Bool) :
    ∀ (l : List α) (i : Nat), (∀ j, i ≤ j → j < i + l.length → fails j = false) →
      survivorsAux fails i l = l := by
  intro l
  induction l with
  | nil => intro i _; rfl
  | cons x xs ih =>
    intro i h
    have hx : fails i = false := h i (Nat.le_refl i) (by simp)
    have hrest := ih (i + 1) (fun j hj1 hj2 => h j (Nat.le_of_succ_le hj1) (by
      simpa [Nat.add_comm, Nat.add_assoc, Nat.add_left_comm] using
        Nat.lt_of_lt_of_le hj2 (by omega)))
    simp [survivorsAux, hx, hrest]

/-- The rebuild loop keeps exactly the elements whose index is not in
the (sorted, in-range) failure list: running it from position `i` on
the failures at or beyond `i` appends precisely the survivors of the
tail to the accumulator. -/
theorem rebuildGo_eq {α : Type} (all : List α) (fails : Nat → Bool) :
    ∀ (k i : Nat) (okay : List α), all.length - i = k →
      ((List.range' i (all.length - i)).filter fails) ≠ [] →
      rebuildGo all i ((List.range' i (all.length - i)).filter fails) okay
        = okay ++ survivorsAux fails i (all.drop i) := by
  intro k
  induction k with
  | zero =>
    intro i okay hk hne
    rw [hk] at hne
    simp at hne
  | succ k ih =>
    intro i okay hk hne
    have hi : i < all.length := by omega
    have hk1 : all.length - (i + 1) = k := by omega
    have hrange : List.range' i (all.length - i)
        = i :: List.range' (i + 1) (all.length - (i + 1)) := by
      rw [hk, hk1]
      simpa using List.range'_succ i k 1
    have hdrop : all.drop i = all.get ⟨i, hi⟩ :: all.drop (i + 1) :=
      List.drop_eq_getElem_cons hi
    by_cases hfi : fails i = true
    · have hfilter : (List.range' i (all.length - i)).filter fails
          = i :: (List.range' (i + 1) (all.length - (i + 1))).filter fails := by
        rw [hrange, List.filter_cons, if_pos (by simp [hfi])]
      rw [hfilter, rebuildGo, dif_pos hi]
      simp only [ne_eq, not_true_eq_false, if_false, ite_self, Nat.le_refl, if_true]
      cases hrest : (List.range' (i + 1) (all.length - (i + 1))).filter fails with
      | nil =>
        have hok : ∀ j, i + 1 ≤ j → j < i + 1 + (all.drop (i + 1)).length →
            fails j = false := by
          intro j hj1 hj2
          have hmem : j ∈ List.range' (i + 1) (all.length - (i + 1)) := by
            rw [List.mem_range'_1]
            constructor
            · exact hj1
            · simpa [List.length_drop] using hj2
          have := List.filter_eq_nil_iff.mp hrest j hmem
          simpa using this
        have hsurv : survivorsAux fails (i + 1) (all.drop (i + 1)) = all.drop (i + 1) :=
          survivorsAux_all_ok fails (all.drop (i + 1)) (i + 1) hok
        simp only [hdrop, survivorsAux, hfi, if_true, hsurv]
      | cons r rs =>
        have hne' : (List.range' (i + 1) (all.length - (i + 1))).filter fails ≠ [] := by
          rw [hrest]; simp
        have := ih (i + 1) okay hk1 hne'
        rw [hrest] at this
        simp only [this, hdrop, survivorsAux, hfi, if_true]
    · have hfi' : fails i = false := by
        cases h : fails i
        · rfl
        · exact absurd h hfi
      have hfilter : (List.range' i (all.length - i)).filter fails
          = (List.range' (i + 1) (all.length - (i + 1))).filter fails := by
        rw [hrange, List.filter_cons, if_neg (by simp [hfi'])]
      have hne' : (List.range' (i + 1) (all.length - (i + 1))).filter fails ≠ [] := by
        rw [← hfilter]; exact fun h => hne (by rw [h])
      cases hrest : (List.range' (i + 1) (all.length - (i + 1))).filter fails with
      | nil => exact absurd hrest hne'
      | cons f fs =>
        have hfbig : i + 1 ≤ f := by
          have hmem : f ∈ (List.range' (i + 1) (all.length - (i + 1))).filter fails := by
            rw [hrest]; simp
          have := (List.mem_range'_1).mp (List.mem_of_mem_filter hmem)
          exact this.1
        rw [hfilter, hrest, rebuildGo, dif_pos hi]
        have hine : i ≠ f := by omega
        have hnle : ¬f ≤ i := by omega
        simp only [hine, ne_eq, not_false_eq_true, if_true, hnle, if_false]
        have := ih (i + 1) (okay ++ [all.get ⟨i, hi⟩]) hk1 hne'
        rw [hrest] at this
        rw [this, hdrop]
        simp [survivorsAux, hfi']

/-- Case characterisation of `emitResult` with a successful marshal. -/
theorem emitResult_cases {α : Type} (watchers : List α) (fails : Nat → Bool) :
    emitResult watchers true fails =
      if watchers.length = 0 then ⟨[], watchers, false⟩
      else if (collectFailed watchers.length fails).length = 0 then
        ⟨List.range watchers.length, watchers, true⟩
      else
        ⟨List.range watchers.length,
          rebuildGo watchers 0 (collectFailed watchers.length fails) [],
          (rebuildGo watchers 0 (collectFailed watchers.length fails) []).length != 0⟩ := by
  rfl

/-- When no delivery fails below `n`, the collected failure list is
empty, and the survivors are the whole list. -/
theorem collectFailed_nil_survivors {α : Type} (watchers : List α) (fails : Nat → Bool)
    (hfail : (collectFailed watchers.length fails).length = 0) :
    survivors watchers fails = watchers := by
  have hnil : (List.range watchers.length).filter fails = [] :=
    List.length_eq_zero.mp hfail
  have hok : ∀ j, 0 ≤ j → j < 0 + watchers.length → fails j = false := by
    intro j _ hj
    have hmem : j ∈ List.range watchers.length := List.mem_range.mpr (by omega)
    simpa using List.filter_eq_nil_iff.mp hnil j hmem
  exact survivorsAux_all_ok fails watchers 0 hok

/-- When some delivery fails, the rebuild loop yields the survivors. -/
theorem rebuildGo_survivors {α : Type} (watchers : List α) (fails : Nat → Bool)
    (hfail : ¬(collectFailed watchers.length fails).length = 0) :
    rebuildGo watchers 0 (collectFailed watchers.length fails) [] =
      survivors watchers fails := by
  have hne : (List.range' 0 (watchers.length - 0)).filter fails ≠ [] := by
    intro h
    apply hfail
    simp only [collectFailed, List.range_eq_range' watchers.length]
    simpa using congrArg List.length h
  have h1 := rebuildGo_eq watchers fails (watchers.length - 0) 0 [] rfl hne
  have h2 : rebuildGo watchers 0 ((List.range' 0 watchers.length).filter fails) []
      = survivorsAux fails 0 watchers := by
    simpa using h1
  have hcf : collectFailed watchers.length fails
      = (List.range' 0 watchers.length).filter fails := by
    simp [collectFailed, List.range_eq_range' watchers.length]
  rw [hcf, h2]
  rfl

/-- The rebuilt subscriber list of a full `emit` run equals the ordered
survivors, for every failure pattern. -/
theorem emitResult_watchers_eq_survivors {α : Type} (watchers : List α)
    (fails : Nat → Bool) :
    (emitResult watchers true fails).watchers = survivors watchers fails := by
  rw [emitResult_cases]
  by_cases h0 : watchers.length = 0
  · rw [if_pos h0]
    have : watchers = [] := List.length_eq_zero.mp h0
    subst this
    rfl
  · rw [if_neg h0]
    by_cases hfail : (collectFailed watchers.length fails).length = 0
    · rw [if_pos hfail]
      exact (collectFailed_nil_survivors watchers fails hfail).symm
    · rw [if_neg hfail]
      exact rebuildGo_survivors watchers fails hfail

/-- C3: for every subscriber list and every pattern of delivery
failures, the rebuilt subscriber list after an emit (the batch emit and
the frame-watcher fan-out run the identical rebuild loop) contains
exactly the non-failed subscribers in their original insertion order,
and emit returns true iff at least one subscriber remains after the
rebuild. -/
theorem emit_rebuild_preserves_order {α : Type} (watchers : List α) (fails : Nat → Bool) :
    (Gwr.emitResult watchers true fails).watchers = Gwr.survivors watchers fails ∧
    ((Gwr.emitResult watchers true fails).ret = true ↔
      (Gwr.emitResult watchers true fails).watchers ≠ []) := by
  refine ⟨emitResult_watchers_eq_survivors watchers fails, ?_⟩
  rw [emitResult_cases]
  by_cases h0 : watchers.length = 0
  · rw [if_pos h0]
    have : watchers = [] := List.length_eq_zero.mp h0
    subst this
    simp
  · rw [if_neg h0]
    by_cases hfail : (collectFailed watchers.length fails).length = 0
    · rw [if_pos hfail]
      simp only [true_iff]
      exact fun h => h0 (by simp [h])
    · rw [if_neg hfail]
      simp only [bne_iff_ne, ne_eq]
      constructor
      · intro h hnil
        exact h (by simp [hnil])
      · intro h hlen
        exact h (List.length_eq_zero.mp hlen)

/-- C2: during an emit of one item, the serialized bytes are handed to
every subscriber that was in the list when the emit began (index set
`range n`), independent of which deliveries fail; each subscriber
either received the bytes successfully or is absent from the rebuilt
list; and a follow-up emit hands the next item to every remaining
subscriber.  The same holds for the framed-byte fan-out
`defaultFrameWatcher.writeToAll`. -/
theorem emit_failure_isolation {α : Type} (watchers : List α) (fails fails2 : Nat → Bool) :
    (Gwr.emitResult watchers true fails).delivered = List.range watchers.length ∧
    (Gwr.emitResult watchers true fails).watchers = Gwr.survivors watchers fails ∧
    (Gwr.emitResult (Gwr.emitResult watchers true fails).watchers true fails2).delivered
      = List.range (Gwr.survivors watchers fails).length ∧
    (Gwr.writeToAll watchers fails).1 = Gwr.survivors watchers fails := by
  have hdeliv : ∀ (l : List α) (f : Nat → Bool),
      (emitResult l true f).delivered = List.range l.length := by
    intro l f
    rw [emitResult_cases]
    by_cases h0 : l.length = 0
    · rw [if_pos h0, List.length_eq_zero.mp h0]
      rfl
    · rw [if_neg h0]
      by_cases hfail : (collectFailed l.length f).length = 0
      · rw [if_pos hfail]
      · rw [if_neg hfail]
  refine ⟨hdeliv watchers fails, emitResult_watchers_eq_survivors watchers fails, ?_, ?_⟩
  · rw [emitResult_watchers_eq_survivors watchers fails]
    exact hdeliv _ fails2
  · have hw : writeToAll watchers fails
        = if (collectFailed watchers.length fails).length = 0 then (watchers, false)
          else (rebuildGo watchers 0 (collectFailed watchers.length fails) [],
            (rebuildGo watchers 0 (collectFailed watchers.length fails) []).length == 0) :=
      rfl
    by_cases hfail : (collectFailed watchers.length fails).length = 0
    · rw [hw, if_pos hfail]
      exact (collectFailed_nil_survivors watchers fails hfail).symm
    · rw [hw, if_neg hfail]
      exact rebuildGo_survivors watchers fails hfail

/-- A write that sent a notification leaves the pending flag set. -/
theorem chanBufWrite_sent_pending (cb : ChanBuf) (p : List UInt8)
    (h : (chanBufWrite cb p).sent = true) :
    (chanBufWrite cb p).state.pending = true := by
  by_cases hc : cb.closed = true
  · simp [chanBufWrite, hc] at h
  · by_cases hcond : 0 < p.length ∧ cb.pending = false
    · simp [chanBufWrite, hc, hcond]
    · simp [chanBufWrite, hc, hcond] at h

/-- A write that sent no notification preserves the pending flag. -/
theorem chanBufWrite_not_sent_pending (cb : ChanBuf) (p : List UInt8)
    (h : (chanBufWrite cb p).sent = false) :
    (chanBufWrite cb p).state.pending = cb.pending := by
  by_cases hc : cb.closed = true
  · simp [chanBufWrite, hc]
  · by_cases hcond : 0 < p.length ∧ cb.pending = false
    · simp [chanBufWrite, hc, hcond] at h
    · simp [chanBufWrite, hc, hcond]

/-- Once the pending flag is set, a run of writes sends nothing and the
flag stays set. -/
theorem chanBufWriteAll_pending (cb : ChanBuf) (hp : cb.pending = true) :
    ∀ ps, (chanBufWriteAll cb ps).2 = 0 ∧ (chanBufWriteAll cb ps).1.pending = true := by
  intro ps
  induction ps generalizing cb with
  | nil => exact ⟨rfl, hp⟩
  | cons p ps ih =>
    have hsent : (chanBufWrite cb p).sent = false := by
      by_cases hc : cb.closed = true
      · simp [chanBufWrite, hc]
      · simp [chanBufWrite, hc, hp]
    have hpend : (chanBufWrite cb p).state.pending = true := by
      rw [chanBufWrite_not_sent_pending cb p hsent]; exact hp
    have := ih (chanBufWrite cb p).state hpend
    simp only [chanBufWriteAll, hsent]
    exact ⟨by simpa using this.1, this.2⟩

/-- From a clear pending flag, a run of writes sends at most one
notification. -/
theorem chanBufWriteAll_le_one (cb : ChanBuf) (hp : cb.pending = false) :
    ∀ ps, (chanBufWriteAll cb ps).2 ≤ 1 := by
  intro ps
  induction ps generalizing cb with
  | nil => exact Nat.zero_le 1
  | cons p ps ih =>
    by_cases hsent : (chanBufWrite cb p).sent = true
    · have hpend := chanBufWrite_sent_pending cb p hsent
      have h0 := (chanBufWriteAll_pending _ hpend ps).1
      simp only [chanBufWriteAll, hsent, if_true, h0]
      omega
    · have hsent' : (chanBufWrite cb p).sent = false := by
        cases h : (chanBufWrite cb p).sent
        · rfl
        · exact absurd h hsent
      have hpend : (chanBufWrite cb p).state.pending = false := by
        rw [chanBufWrite_not_sent_pending cb p hsent']; exact hp
      have := ih (chanBufWrite cb p).state hpend
      simp only [chanBufWriteAll, hsent', if_false]
      simpa using this

/-- Writes on an open buffer append their payloads in order and keep the
buffer open. -/
theorem chanBufWriteAll_buffer (cb : ChanBuf) (hc : cb.closed = false) :
    ∀ ps, (chanBufWriteAll cb ps).1.buffer = cb.buffer ++ ps.flatten ∧
      (chanBufWriteAll cb ps).1.closed = false := by
  intro ps
  induction ps generalizing cb with
  | nil => simpa [chanBufWriteAll] using hc
  | cons p ps ih =>
    have hstate : (chanBufWrite cb p).state.buffer = cb.buffer ++ p ∧
        (chanBufWrite cb p).state.closed = false := by
      by_cases hcond : 0 < p.length ∧ cb.pending = false
      · simp [chanBufWrite, hc, hcond]
      · simp [chanBufWrite, hc, hcond]
    have := ih (chanBufWrite cb p).state hstate.2
    simp only [chanBufWriteAll]
    refine ⟨?_, this.2⟩
    rw [this.1, hstate.1, List.flatten_cons, List.append_assoc]

/-- `List.lookup` on a cons cell, with the boolean key test spelled as a
propositional `if`. -/
theorem lookup_cons_eq_if {β : Type} (p : String × β) (ps : List (String × β)) (q : String) :
    (p :: ps).lookup q = if q = p.1 then some p.2 else ps.lookup q := by
  by_cases h : q = p.1
  · subst h
    simp [List.lookup]
  · have hb : (q == p.1) = false := beq_eq_false_iff_ne.mpr h
    simp [List.lookup, hb, h]

/-- Lookup after `mapSet` sees the new binding at the written key and is
unchanged elsewhere. -/
theorem lookup_mapSet {β : Type} (k : String) (v : β) :
    ∀ (m : List (String × β)) (q : String),
      (mapSet m k v).lookup q = if q = k then some v else m.lookup q := by
  intro m
  induction m with
  | nil =>
    intro q
    show ((k, v) :: []).lookup q = _
    rw [lookup_cons_eq_if]
  | cons p ps ih =>
    intro q
    by_cases hp : p.1 = k
    · show (if p.1 = k then ((k, v) :: ps) else p :: mapSet ps k v).lookup q = _
      rw [if_pos hp, lookup_cons_eq_if, lookup_cons_eq_if, hp]
      by_cases hq : q = k <;> simp [hq]
    · show (if p.1 = k then ((k, v) :: ps) else p :: mapSet ps k v).lookup q = _
      rw [if_neg hp, lookup_cons_eq_if, ih q, lookup_cons_eq_if]
      by_cases hqp : q = p.1
      · have hqk : ¬q = k := fun h => hp (hqp ▸ h)
        rw [if_pos hqp, if_neg hqk, if_pos hqp]
      · rw [if_neg hqp, if_neg hqp]

/-- A key with a binding is among the keys. -/
theorem lookup_isSome_mem_keys {β : Type} (k : String) :
    ∀ (m : List (String × β)), (m.lookup k).isSome → k ∈ m.map Prod.fst := by
  intro m
  induction m with
  | nil => intro h; simp [List.lookup] at h
  | cons p ps ih =>
    intro h
    rw [lookup_cons_eq_if] at h
    by_cases hk : k = p.1
    · simp [hk]
    · rw [if_neg hk] at h
      simp [ih h]

/-- Every step preserves "active iff some subscriber". -/
theorem watchStep_inv (hasActi : Bool) (s : ActiveState) (e : WatchEvent)
    (h : s.active = true ↔ 0 < s.subs) :
    (watchStep hasActi s e).active = true ↔ 0 < (watchStep hasActi s e).subs := by
  cases e with
  | watch ok =>
    by_cases hok : ok = true
    · subst hok
      simp [watchStep]
    · have : ok = false := by cases ok <;> simp_all
      subst this
      simpa [watchStep] using h
  | pumpEmit survivors =>
    by_cases ha : s.active = true
    · by_cases hz : min survivors s.subs = 0
      · simp [watchStep, ha, hz]
      · simp [watchStep, ha, hz]
        omega
    · have : s.active = false := by cases h' : s.active <;> simp_all
      simpa [watchStep, this] using h
  | drain => simp [watchStep]

end Gwr

/-- C4 counterexample: on the item buffer, both the first and the second
`HandleItem` call since the last drain send a ready notification — two
notifications are outstanding at once, while the claim says writes after
the first send none and at most one is outstanding. -/
theorem itemBuf_second_handle_also_sends :
    (Gwr.itemBufHandle Gwr.newItemBuf [[65]]).sent = true ∧
    (Gwr.itemBufHandle (Gwr.itemBufHandle Gwr.newItemBuf [[65]]).state [[66]]).sent = true :=
  ⟨rfl, rfl⟩

/-- C4 (amended): for the chunk buffer the claim holds — starting from a
state with the pending flag clear (as any drain leaves it), a run of
writes sends at most one ready notification, and on an open buffer the
first byte-adding write sends exactly one while all subsequent writes
before the next drain send none.  The item buffer does not share this
contract: its pending flag is unused, and every `HandleItem` /
`HandleItems` call on an open buffer that adds at least one item sends a
notification, so one notification per write (not per drain interval) is
outstanding. -/
theorem chanBuf_one_ready_outstanding (cb : Gwr.ChanBuf) (hp : cb.pending = false) :
    (∀ ps, (Gwr.chanBufWriteAll cb ps).2 ≤ 1) ∧
    (cb.closed = false → ∀ p ps, p ≠ [] →
      (Gwr.chanBufWrite cb p).sent = true ∧
      (Gwr.chanBufWriteAll (Gwr.chanBufWrite cb p).state ps).2 = 0) ∧
    (∀ cb' : Gwr.ChanBuf, ((Gwr.chanBufDrain cb').2).pending = false) ∧
    (∀ (ib : Gwr.ItemBuf) (items : List (List UInt8)), ib.closed = false → items ≠ [] →
      (Gwr.itemBufHandle ib items).sent = true) := by
  refine ⟨Gwr.chanBufWriteAll_le_one cb hp, ?_, fun _ => rfl, ?_⟩
  · intro hc p ps hne
    have hlen : 0 < p.length := List.length_pos.mpr hne
    have hsent : (Gwr.chanBufWrite cb p).sent = true := by
      simp [Gwr.chanBufWrite, hc, hlen, hp]
    refine ⟨hsent, ?_⟩
    exact (Gwr.chanBufWriteAll_pending _ (Gwr.chanBufWrite_sent_pending cb p hsent) ps).1
  · intro ib items hc hne
    have hlen : 0 < items.length := List.length_pos.mpr hne
    simp [Gwr.itemBufHandle, hc, hlen]

/-- Witness for C4's amended theorem at a fresh open chunk buffer. -/
theorem chanBuf_one_ready_outstanding_witness :
    (Gwr.ChanBuf.mk [] false false []).pending = false ∧
    ((∀ ps, (Gwr.chanBufWriteAll (Gwr.ChanBuf.mk [] false false []) ps).2 ≤ 1) ∧
      ((Gwr.ChanBuf.mk [] false false []).closed = false → ∀ p ps, p ≠ [] →
        (Gwr.chanBufWrite (Gwr.ChanBuf.mk [] false false []) p).sent = true ∧
        (Gwr.chanBufWriteAll (Gwr.chanBufWrite (Gwr.ChanBuf.mk [] false false []) p).state ps).2 = 0) ∧
      (∀ cb' : Gwr.ChanBuf, ((Gwr.chanBufDrain cb').2).pending = false) ∧
      (∀ (ib : Gwr.ItemBuf) (items : List (List UInt8)), ib.closed = false → items ≠ [] →
        (Gwr.itemBufHandle ib items).sent = true)) :=
  ⟨rfl, chanBuf_one_ready_outstanding (Gwr.ChanBuf.mk [] false false []) rfl⟩

/-- C6: on an open chunk buffer, `drain()` after a sequence of writes
since the previous drain returns exactly the concatenation of the bytes
written, in write order, and leaves the buffer empty with the pending
flag cleared; an immediately following drain with no intervening writes
returns the empty byte slice. -/
theorem chanBuf_drain_returns_written (cb : Gwr.ChanBuf) (hc : cb.closed = false)
    (ps : List (List UInt8)) :
    (Gwr.chanBufDrain (Gwr.chanBufWriteAll (Gwr.chanBufDrain cb).2 ps).1).1 = ps.flatten ∧
    (Gwr.chanBufDrain (Gwr.chanBufWriteAll (Gwr.chanBufDrain cb).2 ps).1).2.buffer = [] ∧
    (Gwr.chanBufDrain (Gwr.chanBufWriteAll (Gwr.chanBufDrain cb).2 ps).1).2.pending = false ∧
    (Gwr.chanBufDrain ((Gwr.chanBufDrain (Gwr.chanBufWriteAll (Gwr.chanBufDrain cb).2 ps).1).2)).1
      = [] := by
  have hc1 : (Gwr.chanBufDrain cb).2.closed = false := hc
  have hbuf := Gwr.chanBufWriteAll_buffer (Gwr.chanBufDrain cb).2 hc1 ps
  have hdrain : (Gwr.chanBufDrain (Gwr.chanBufWriteAll (Gwr.chanBufDrain cb).2 ps).1).1
      = ps.flatten := by
    show (Gwr.chanBufWriteAll (Gwr.chanBufDrain cb).2 ps).1.buffer = ps.flatten
    rw [hbuf.1]
    rfl
  exact ⟨hdrain, rfl, rfl, rfl⟩

/-- Witness for C6 at a fresh open chunk buffer and two concrete writes. -/
theorem chanBuf_drain_returns_written_witness :
    (Gwr.ChanBuf.mk [] false false []).closed = false ∧
    ((Gwr.chanBufDrain (Gwr.chanBufWriteAll
        (Gwr.chanBufDrain (Gwr.ChanBuf.mk [] false false [])).2 [[1], [2, 3]]).1).1
        = ([[1], [2, 3]] : List (List UInt8)).flatten ∧
      (Gwr.chanBufDrain (Gwr.chanBufWriteAll
        (Gwr.chanBufDrain (Gwr.ChanBuf.mk [] false false [])).2 [[1], [2, 3]]).1).2.buffer = [] ∧
      (Gwr.chanBufDrain (Gwr.chanBufWriteAll
        (Gwr.chanBufDrain (Gwr.ChanBuf.mk [] false false [])).2 [[1], [2, 3]]).1).2.pending
        = false ∧
      (Gwr.chanBufDrain ((Gwr.chanBufDrain (Gwr.chanBufWriteAll
        (Gwr.chanBufDrain (Gwr.ChanBuf.mk [] false false [])).2 [[1], [2, 3]]).1).2)).1 = []) :=
  ⟨rfl, chanBuf_drain_returns_written (Gwr.ChanBuf.mk [] false false []) rfl [[1], [2, 3]]⟩

/-- A run of the activation machine on a trace is the fold of the step
function; appending events composes. -/
theorem watchRun_append (hasActi : Bool) (s : Gwr.ActiveState)
    (tr l : List Gwr.WatchEvent) :
    Gwr.watchRun hasActi s (tr ++ l) = Gwr.watchRun hasActi (Gwr.watchRun hasActi s tr) l :=
  List.foldl_append _ _ _ _

/-- The activation invariant holds along every run from an invariant
state. -/
theorem watchRun_inv (hasActi : Bool) :
    ∀ (tr : List Gwr.WatchEvent) (s : Gwr.ActiveState),
      (s.active = true ↔ 0 < s.subs) →
      ((Gwr.watchRun hasActi s tr).active = true ↔ 0 < (Gwr.watchRun hasActi s tr).subs) := by
  intro tr
  induction tr with
  | nil => intro s h; exact h
  | cons e tr ih =>
    intro s h
    exact ih (Gwr.watchStep hasActi s e) (Gwr.watchStep_inv hasActi s e h)

/-- C1: along every serialised trace of watches, pump-evictions and
drains on a marshaled source wrapping an activate-capable generic
source: the source is active iff it has a subscriber (so the
activating watch is exactly one that raises the count from zero); a
successful watch invokes `Activate` exactly once when the source was
idle and not at all when it was already active, and leaves the source
active; after all subscribers are evicted (`pumpEmit 0`) or drained the
source is inactive with no subscribers; and a successful watch after
such a deactivation invokes `Activate` exactly once more. -/
theorem activate_exactly_on_idle_watch (tr : List Gwr.WatchEvent) :
    ((Gwr.watchRun true Gwr.initWatchState tr).active = true ↔
      0 < (Gwr.watchRun true Gwr.initWatchState tr).subs) ∧
    (Gwr.watchRun true Gwr.initWatchState (tr ++ [.watch true])).activations
      = (Gwr.watchRun true Gwr.initWatchState tr).activations
        + (if (Gwr.watchRun true Gwr.initWatchState tr).active then 0 else 1) ∧
    (Gwr.watchRun true Gwr.initWatchState (tr ++ [.watch true])).active = true ∧
    (Gwr.watchRun true Gwr.initWatchState (tr ++ [.pumpEmit 0])).active = false ∧
    (Gwr.watchRun true Gwr.initWatchState (tr ++ [.drain])).active = false ∧
    (Gwr.watchRun true Gwr.initWatchState (tr ++ [.drain])).subs = 0 ∧
    (Gwr.watchRun true Gwr.initWatchState (tr ++ [.drain, .watch true])).activations
      = (Gwr.watchRun true Gwr.initWatchState tr).activations + 1 ∧
    (Gwr.watchRun true Gwr.initWatchState (tr ++ [.pumpEmit 0, .watch true])).activations
      = (Gwr.watchRun true Gwr.initWatchState tr).activations + 1 := by
  set s := Gwr.watchRun true Gwr.initWatchState tr with hs
  refine ⟨watchRun_inv true tr Gwr.initWatchState (by simp [Gwr.initWatchState]),
    ?_, ?_, ?_, ?_, ?_, ?_, ?_⟩ <;>
    rw [watchRun_append, ← hs]
  · cases h : s.active <;> simp [Gwr.watchRun, Gwr.watchStep, h]
  · simp [Gwr.watchRun, Gwr.watchStep]
  · cases h : s.active <;> simp [Gwr.watchRun, Gwr.watchStep, h]
  · simp [Gwr.watchRun, Gwr.watchStep]
  · simp [Gwr.watchRun, Gwr.watchStep]
  · simp [Gwr.watchRun, Gwr.watchStep]
  · cases h : s.active <;> simp [Gwr.watchRun, Gwr.watchStep, h]

/-- C7: `HandleItem` (and the identical `HandleItems`) returns false
without touching the state when the source is not active; returns true
when the handoff channel accepts the value within the bounded wait
(default 100 µs = 100000 ns); and on timeout clears the active flag and
closes every subscriber of every format (each watcher list becomes
empty, formats preserved), returning false. -/
theorem handleItem_backpressure {σ : Type} (s : Gwr.HandleState σ) (accepts : Bool) :
    (Gwr.dsActive s = false → Gwr.handleItem s accepts = (s, false)) ∧
    (Gwr.dsActive s = true → accepts = true → Gwr.handleItem s accepts = (s, true)) ∧
    (Gwr.dsActive s = true → accepts = false →
      (Gwr.handleItem s accepts).2 = false ∧
      (Gwr.handleItem s accepts).1.active = false ∧
      (∀ p ∈ (Gwr.handleItem s accepts).1.watchers, p.2 = ([] : List σ)) ∧
      (Gwr.handleItem s accepts).1.watchers.map Prod.fst = s.watchers.map Prod.fst) ∧
    Gwr.dsDefaultMaxWaitNanos = 100000 := by
  refine ⟨?_, ?_, ?_, rfl⟩
  · intro h
    simp [Gwr.handleItem, h]
  · intro h ha
    simp [Gwr.handleItem, h, ha]
  · intro h ha
    have hact : s.active = true := by
      have := h
      simp only [Gwr.dsActive, Bool.and_eq_true] at this
      exact this.1.1
    refine ⟨?_, ?_, ?_, ?_⟩ <;>
      simp [Gwr.handleItem, h, ha, hact, List.mem_map]

/-- Witness for C7 at an inactive source, an active source with an
accepting channel, and an active source hitting the timeout. -/
theorem handleItem_backpressure_witness :
    Gwr.handleItem (Gwr.HandleState.mk false false false [] : Gwr.HandleState Nat) true
      = (Gwr.HandleState.mk false false false [], false) ∧
    Gwr.handleItem (Gwr.HandleState.mk true true true [("json", [5])] : Gwr.HandleState Nat) true
      = (Gwr.HandleState.mk true true true [("json", [5])], true) ∧
    (Gwr.handleItem (Gwr.HandleState.mk true true true [("json", [5])] : Gwr.HandleState Nat)
        false).2 = false ∧
    (Gwr.handleItem (Gwr.HandleState.mk true true true [("json", [5])] : Gwr.HandleState Nat)
        false).1.active = false :=
  ⟨(handleItem_backpressure (Gwr.HandleState.mk false false false []) true).1 rfl,
   (handleItem_backpressure (Gwr.HandleState.mk true true true [("json", [5])]) true).2.1 rfl rfl,
   ((handleItem_backpressure (Gwr.HandleState.mk true true true [("json", [5])]) false).2.2.1
     rfl rfl).1,
   ((handleItem_backpressure (Gwr.HandleState.mk true true true [("json", [5])]) false).2.2.1
     rfl rfl).2.1⟩

/-- C9: `DataSource.Get` returns `ErrNotGetable` when the wrapped
source has no snapshot operation; returns `ErrUnsupportedFormat` when
the lowercased format name has no binding in the format map; and
otherwise writes the codec's serialization of the snapshot to the
writer in exactly one `Write` call, returning the codec error or the
write error as it arises. -/
theorem dsGet_policy {ι φ ε : Type} (getSource : Option ι) (formats : List (String × φ))
    (marshalGet : φ → ι → Except ε (List UInt8)) (write : List UInt8 → Option ε)
    (formatName : String) :
    (getSource = none →
      Gwr.dsGet getSource formats marshalGet write formatName
        = ⟨some .errNotGetable, []⟩) ∧
    (∀ d, getSource = some d →
      formats.lookup (Gwr.goToLower formatName) = none →
      Gwr.dsGet getSource formats marshalGet write formatName
        = ⟨some .errUnsupportedFormat, []⟩) ∧
    (∀ d f e, getSource = some d →
      formats.lookup (Gwr.goToLower formatName) = some f →
      marshalGet f d = .error e →
      Gwr.dsGet getSource formats marshalGet write formatName
        = ⟨some (.codec e), []⟩) ∧
    (∀ d f buf, getSource = some d →
      formats.lookup (Gwr.goToLower formatName) = some f →
      marshalGet f d = .ok buf →
      (Gwr.dsGet getSource formats marshalGet write formatName).writes = [buf] ∧
      (Gwr.dsGet getSource formats marshalGet write formatName).err
        = (write buf).map Gwr.GwrGetError.write) := by
  refine ⟨?_, ?_, ?_, ?_⟩
  · intro h
    simp [Gwr.dsGet, h]
  · intro d hd hl
    simp [Gwr.dsGet, hd, hl]
  · intro d f e hd hl hm
    simp [Gwr.dsGet, hd, hl, hm]
  · intro d f buf hd hl hm
    cases hw : write buf <;> simp [Gwr.dsGet, hd, hl, hm, hw]

/-- Witness for C9: each branch at concrete inputs — no getter; an
unknown format; a codec error; and a successful serialization looked up
case-insensitively ("JSON" finds the "json" codec) written in one
call. -/
theorem dsGet_policy_witness :
    Gwr.dsGet (none : Option Nat) ([("json", 7)] : List (String × Nat))
        (fun _ _ => Except.ok [1]) (fun _ => (none : Option Nat)) "json"
      = ⟨some .errNotGetable, []⟩ ∧
    Gwr.dsGet (some 3) ([("json", 7)] : List (String × Nat))
        (fun _ _ => Except.ok [1]) (fun _ => (none : Option Nat)) "xml"
      = ⟨some .errUnsupportedFormat, []⟩ ∧
    Gwr.dsGet (some 3) ([("json", 7)] : List (String × Nat))
        (fun _ _ => Except.error 9) (fun _ => (none : Option Nat)) "JSON"
      = ⟨some (.codec 9), []⟩ ∧
    ((Gwr.dsGet (some 3) ([("json", 7)] : List (String × Nat))
        (fun _ _ => Except.ok [1]) (fun _ => (none : Option Nat)) "JSON").writes = [[1]] ∧
      (Gwr.dsGet (some 3) ([("json", 7)] : List (String × Nat))
        (fun _ _ => Except.ok [1]) (fun _ => (none : Option Nat)) "JSON").err
        = ((none : Option Nat)).map Gwr.GwrGetError.write) :=
  ⟨(dsGet_policy none [("json", 7)] (fun _ _ => Except.ok [1]) (fun _ => none) "json").1 rfl,
   (dsGet_policy (some 3) [("json", 7)] (fun _ _ => Except.ok [1]) (fun _ => none) "xml").2.1
     3 rfl rfl,
   (dsGet_policy (some 3) [("json", 7)] (fun _ _ => Except.error 9) (fun _ => none) "JSON").2.2.1
     3 7 9 rfl rfl rfl,
   (dsGet_policy (some 3) [("json", 7)] (fun _ _ => Except.ok [1]) (fun _ => none) "JSON").2.2.2
     3 7 [1] rfl rfl rfl⟩

/-- `dsGet` can only report `ErrUnsupportedFormat` when the lowercased
name has no binding. -/
theorem dsGet_err_ne_unsupported_of_lookup {ι φ ε : Type} (getSource : Option ι)
    (formats : List (String × φ)) (marshalGet : φ → ι → Except ε (List UInt8))
    (write : List UInt8 → Option ε) (name : String)
    (h : (formats.lookup (Gwr.goToLower name)).isSome = true) :
    (Gwr.dsGet getSource formats marshalGet write name).err
      ≠ some Gwr.GwrGetError.errUnsupportedFormat := by
  cases getSource with
  | none => simp [Gwr.dsGet]
  | some d =>
    obtain ⟨f, hf⟩ := Option.isSome_iff_exists.mp h
    cases hm : marshalGet f d with
    | error e => simp [Gwr.dsGet, hf, hm]
    | ok buf => cases hw : write buf <;> simp [Gwr.dsGet, hf, hm, hw]

/-- After `withJsonFormat`, "json" is bound. -/
theorem lookup_withJsonFormat_json {φ : Type} (m : List (String × Gwr.FormatCodec φ)) :
    ((Gwr.withJsonFormat m).lookup "json").isSome = true := by
  unfold Gwr.withJsonFormat
  by_cases h : (m.lookup "json").isSome = true
  · rw [if_pos h]
    exact h
  · rw [if_neg (by simpa using h), Gwr.lookup_mapSet]
    simp

/-- `withStringText` leaves keys other than "text" untouched and leaves
"text" bound. -/
theorem lookup_withStringText {φ : Type} (m : List (String × Gwr.FormatCodec φ))
    (k : String) :
    (¬k = "text" → (Gwr.withStringText m).lookup k = m.lookup k) ∧
    (((Gwr.withStringText m).lookup "text").isSome = true) := by
  unfold Gwr.withStringText
  by_cases h : (m.lookup "text").isSome = true
  · rw [if_pos h]
    exact ⟨fun _ => rfl, h⟩
  · rw [if_neg (by simpa using h)]
    constructor
    · intro hk
      rw [Gwr.lookup_mapSet, if_neg hk]
    · rw [Gwr.lookup_mapSet]
      simp

/-- `withTemplatedText` leaves keys other than "text" untouched. -/
theorem lookup_withTemplatedText_other {φ : Type} (m : List (String × Gwr.FormatCodec φ))
    (hasTT : Bool) (k : String) (hk : ¬k = "text") :
    (Gwr.withTemplatedText m hasTT).lookup k = m.lookup k := by
  unfold Gwr.withTemplatedText
  by_cases h : (m.lookup "text").isSome = true
  · rw [if_pos h]
  · rw [if_neg (by simpa using h)]
    by_cases htt : hasTT = true
    · rw [if_pos htt, Gwr.lookup_mapSet, if_neg hk]
    · rw [if_neg htt]

/-- `withTextFormat` leaves every key other than "text" untouched. -/
theorem lookup_withTextFormat_other {φ : Type} (m : List (String × Gwr.FormatCodec φ))
    (hasTT : Bool) (k : String) (hk : ¬k = "text") :
    (Gwr.withTextFormat m hasTT).lookup k = m.lookup k := by
  unfold Gwr.withTextFormat
  rw [(lookup_withStringText _ k).1 hk, lookup_withTemplatedText_other _ _ _ hk]

/-- After `withTextFormat`, "text" is bound. -/
theorem lookup_withTextFormat_text {φ : Type} (m : List (String × Gwr.FormatCodec φ))
    (hasTT : Bool) :
    ((Gwr.withTextFormat m hasTT).lookup "text").isSome = true := by
  unfold Gwr.withTextFormat
  exact (lookup_withStringText _ "text").2

/-- The "json" binding survives the whole of `buildFormats`. -/
theorem buildFormats_lookup_json {φ : Type} (supplied srcFormats : List (String × φ))
    (hasTT : Bool) :
    ((Gwr.buildFormats supplied srcFormats hasTT).lookup "json").isSome = true := by
  unfold Gwr.buildFormats
  rw [lookup_withTextFormat_other _ _ _ (by decide)]
  exact lookup_withJsonFormat_json _

/-- The "text" binding is present after `buildFormats`. -/
theorem buildFormats_lookup_text {φ : Type} (supplied srcFormats : List (String × φ))
    (hasTT : Bool) :
    ((Gwr.buildFormats supplied srcFormats hasTT).lookup "text").isSome = true := by
  unfold Gwr.buildFormats
  exact lookup_withTextFormat_text _ _

/-- C10 (implicit): whatever format map is supplied (possibly empty)
and whatever formats the source declares, the map built by
`NewDataSource` always binds "json" (the built-in line-delimited JSON
codec when none was supplied) and "text" (the templated codec or the
`stringIt` fallback); hence `Formats()` (the sorted key list) contains
"json" and "text", `Get` with either name cannot return
`ErrUnsupportedFormat`, and the lowercased-key lookups that `Watch` /
`WatchItems` perform on the identically-keyed watcher map both
succeed. -/
theorem newDataSource_always_json_text {φ ι ε : Type}
    (supplied srcFormats : List (String × φ)) (hasTT : Bool)
    (fm : List (String × Gwr.FormatCodec φ))
    (hfm : fm = Gwr.buildFormats supplied srcFormats hasTT)
    (getSource : Option ι)
    (marshalGet : Gwr.FormatCodec φ → ι → Except ε (List UInt8))
    (write : List UInt8 → Option ε) :
    (fm.lookup "json").isSome = true ∧
    (fm.lookup "text").isSome = true ∧
    "json" ∈ Gwr.formatNames fm ∧
    "text" ∈ Gwr.formatNames fm ∧
    (Gwr.dsGet getSource fm marshalGet write "json").err
      ≠ some Gwr.GwrGetError.errUnsupportedFormat ∧
    (Gwr.dsGet getSource fm marshalGet write "text").err
      ≠ some Gwr.GwrGetError.errUnsupportedFormat ∧
    (fm.lookup (Gwr.goToLower "json")).isSome = true ∧
    (fm.lookup (Gwr.goToLower "text")).isSome = true := by
  subst hfm
  have hj := buildFormats_lookup_json supplied srcFormats hasTT
  have ht := buildFormats_lookup_text supplied srcFormats hasTT
  have hmem : ∀ k, (((Gwr.buildFormats supplied srcFormats hasTT).lookup k).isSome = true) →
      k ∈ Gwr.formatNames (Gwr.buildFormats supplied srcFormats hasTT) := by
    intro k hk
    have := Gwr.lookup_isSome_mem_keys k _ hk
    exact (List.mergeSort_perm _ _).mem_iff.mpr this
  exact ⟨hj, ht, hmem "json" hj, hmem "text" ht,
    dsGet_err_ne_unsupported_of_lookup getSource _ marshalGet write "json" hj,
    dsGet_err_ne_unsupported_of_lookup getSource _ marshalGet write "text" ht,
    hj, ht⟩

/-- Witness for C10 at the empty supplied map, no source formats, no
text template, a getable source, and a trivially succeeding codec and
writer. -/
theorem newDataSource_always_json_text_witness :
    ((Gwr.buildFormats ([] : List (String × Nat)) [] false).lookup "json").isSome = true ∧
    ((Gwr.buildFormats ([] : List (String × Nat)) [] false).lookup "text").isSome = true ∧
    "json" ∈ Gwr.formatNames (Gwr.buildFormats ([] : List (String × Nat)) [] false) ∧
    "text" ∈ Gwr.formatNames (Gwr.buildFormats ([] : List (String × Nat)) [] false) ∧
    (Gwr.dsGet (some 0) (Gwr.buildFormats ([] : List (String × Nat)) [] false)
        (fun _ _ => Except.ok ([] : List UInt8)) (fun _ => (none : Option Nat)) "json").err
      ≠ some Gwr.GwrGetError.errUnsupportedFormat ∧
    (Gwr.dsGet (some 0) (Gwr.buildFormats ([] : List (String × Nat)) [] false)
        (fun _ _ => Except.ok ([] : List UInt8)) (fun _ => (none : Option Nat)) "text").err
      ≠ some Gwr.GwrGetError.errUnsupportedFormat ∧
    ((Gwr.buildFormats ([] : List (String × Nat)) [] false).lookup
      (Gwr.goToLower "json")).isSome = true ∧
    ((Gwr.buildFormats ([] : List (String × Nat)) [] false).lookup
      (Gwr.goToLower "text")).isSome = true :=
  newDataSource_always_json_text [] [] false _ rfl (some 0)
    (fun _ _ => Except.ok []) (fun _ => none)

/-- C5: `MultiErr.AsError` on the empty slice returns nil and on a
many-element slice returns the aggregate, as claimed; but on a
one-element slice the code evaluates `mienErrs[1]`, an index out of
range (a run-time panic), instead of returning the single sub-error
`mienErrs[0]` as the claim and the function's own doc comment state. -/
theorem multiErr_asError_single_panics :
    Gwr.multiErrAsError ([] : List Nat) = .none ∧
    Gwr.multiErrAsError ([7] : List Nat) = .panic ∧
    Gwr.multiErrAsError ([7] : List Nat) ≠ .one 7 ∧
    Gwr.multiErrAsError ([7, 8] : List Nat) = .multi [7, 8] := by
  refine ⟨rfl, rfl, ?_, rfl⟩
  decide

/-- Digit characters built from `48 + d` decode back to `48 + d`. -/
theorem digit_char_toNat : ∀ d, d < 10 → (Char.ofNat (48 + d)).toNat = 48 + d := by decide

/-- Every character of a decimal rendering is an ASCII digit. -/
theorem decimalChars_digits :
    ∀ (n : Nat), ∀ c ∈ Gwr.decimalChars n, 48 ≤ c.toNat ∧ c.toNat ≤ 57 := by
  intro n
  induction n using Nat.strong_induction_on with
  | _ n ih =>
    intro c hc
    rw [Gwr.decimalChars] at hc
    by_cases h : n < 10
    · rw [if_pos h] at hc
      simp only [List.mem_singleton] at hc
      subst hc
      rw [digit_char_toNat n h]
      omega
    · rw [if_neg h] at hc
      rcases List.mem_append.mp hc with h1 | h2
      · exact ih (n / 10) (Nat.div_lt_self (by omega) (by omega)) c h1
      · simp only [List.mem_singleton] at h2
        subst h2
        have hm : n % 10 < 10 := Nat.mod_lt n (by omega)
        rw [digit_char_toNat (n % 10) hm]
        omega

/-- A decimal rendering is never empty. -/
theorem decimalChars_ne_nil (n : Nat) : Gwr.decimalChars n ≠ [] := by
  rw [Gwr.decimalChars]
  by_cases h : n < 10
  · rw [if_pos h]
    simp
  · rw [if_neg h]
    simp

/-- Folding the pure decimal step over a decimal rendering recovers the
number (shifted past any accumulator). -/
theorem decimalChars_foldl :
    ∀ (n : Nat) (a : Nat),
      (Gwr.decimalChars n).foldl Gwr.stepPure a
        = a * 10 ^ (Gwr.decimalChars n).length + n := by
  intro n
  induction n using Nat.strong_induction_on with
  | _ n ih =>
    intro a
    rw [Gwr.decimalChars]
    by_cases h : n < 10
    · rw [if_pos h]
      simp only [List.foldl_cons, List.foldl_nil, List.length_singleton]
      rw [Gwr.stepPure, digit_char_toNat n h]
      ring_nf
      omega
    · rw [if_neg h]
      rw [List.foldl_append, List.length_append]
      rw [ih (n / 10) (Nat.div_lt_self (by omega) (by omega)) a]
      simp only [List.foldl_cons, List.foldl_nil, List.length_singleton]
      rw [Gwr.stepPure, digit_char_toNat (n % 10) (Nat.mod_lt n (by omega))]
      rw [pow_succ]
      have : 48 + n % 10 - 48 = n % 10 := by omega
      rw [this]
      have hdm : 10 * (n / 10) + n % 10 = n := Nat.div_add_mod n 10
      ring_nf
      omega

/-- Folding the pure step is mod-`2 ^ 64` congruent in the accumulator. -/
theorem foldl_stepPure_mod_congr :
    ∀ (ds : List Char) (x y : Nat), x % 2 ^ 64 = y % 2 ^ 64 →
      (ds.foldl Gwr.stepPure x) % 2 ^ 64 = (ds.foldl Gwr.stepPure y) % 2 ^ 64 := by
  intro ds
  induction ds with
  | nil => intro x y h; exact h
  | cons c ds ih =>
    intro x y h
    simp only [List.foldl_cons]
    apply ih
    have hx : Nat.ModEq (2 ^ 64) x y := h
    have : Nat.ModEq (2 ^ 64) (10 * x + (c.toNat - 48)) (10 * y + (c.toNat - 48)) :=
      (hx.mul_left 10).add_right _
    exact this

/-- `scanNumbers` over digit characters followed by CR computes the
pure fold mod `2 ^ 64` and stops after the CR. -/
theorem scanNumbers_digits :
    ∀ (ds : List Char), (∀ c ∈ ds, 48 ≤ c.toNat ∧ c.toNat ≤ 57) →
      ∀ (acc : Nat) (rest : List Char), acc < 2 ^ 64 →
        Gwr.scanNumbers acc (ds ++ '\r' :: rest)
          = some ((ds.foldl Gwr.stepPure acc) % 2 ^ 64, rest) := by
  intro ds
  induction ds with
  | nil =>
    intro _ acc rest hacc
    simp only [List.nil_append, Gwr.scanNumbers, if_pos rfl, if_true, List.foldl_nil,
      Nat.mod_eq_of_lt hacc]
  | cons c ds ih =>
    intro hds acc rest hacc
    have hc : 48 ≤ c.toNat ∧ c.toNat ≤ 57 := hds c (List.mem_cons_self c ds)
    have hcr : ¬c = '\r' := by
      intro h
      subst h
      simp at hc
    have hdig : (c.toNat + 256 - 48) % 256 = c.toNat - 48 := by omega
    have hstep := ih (fun d hd => hds d (List.mem_cons_of_mem c hd))
      ((10 * acc + (c.toNat - 48)) % 2 ^ 64) rest (Nat.mod_lt _ (by norm_num))
    have hcongr := foldl_stepPure_mod_congr ds
      ((10 * acc + (c.toNat - 48)) % 2 ^ 64) (Gwr.stepPure acc c)
      (by rw [Nat.mod_mod_of_dvd _ dvd_rfl]; rfl)
    calc Gwr.scanNumbers acc ((c :: ds) ++ '\r' :: rest)
        = Gwr.scanNumbers ((10 * acc + (c.toNat + 256 - 48) % 256) % 2 ^ 64)
            (ds ++ '\r' :: rest) := by
          simp only [List.cons_append, Gwr.scanNumbers, if_neg hcr]
          rfl
      _ = some ((ds.foldl Gwr.stepPure ((10 * acc + (c.toNat - 48)) % 2 ^ 64)) % 2 ^ 64,
            rest) := by rw [hdig, hstep]
      _ = some (((c :: ds).foldl Gwr.stepPure acc) % 2 ^ 64, rest) := by
          rw [List.foldl_cons, hcongr]

/-- `int64Wrap` is the identity on the int64 range. -/
theorem int64Wrap_eq_self (z : Int) (h1 : -2 ^ 63 ≤ z) (h2 : z < 2 ^ 63) :
    Gwr.int64Wrap z = z := by
  unfold Gwr.int64Wrap
  have hp63 : (2 : Int) ^ 63 = 9223372036854775808 := by norm_num
  have hp64 : (2 : Int) ^ 64 = 18446744073709551616 := by norm_num
  rw [hp63, hp64] at *
  omega

/-- Negating the reinterpreted magnitude recovers a negative int64,
including the wrap at `-2 ^ 63`. -/
theorem int64_neg_natAbs (n : Int) (hlo : -2 ^ 63 ≤ n) (hneg : n < 0) :
    Gwr.int64Wrap (-Gwr.uintToInt64 n.natAbs) = n := by
  unfold Gwr.uintToInt64 Gwr.int64Wrap
  have hp63 : (2 : Int) ^ 63 = 9223372036854775808 := by norm_num
  have hp64 : (2 : Int) ^ 64 = 18446744073709551616 := by norm_num
  have hp63n : (2 : Nat) ^ 63 = 9223372036854775808 := by norm_num
  rw [hp63n, hp63, hp64] at *
  split <;> omega

/-- Reading back the decimal rendering of an int64 recovers it:
`readInteger` on `<int>\r\n<rest>` yields the integer and `rest`. -/
theorem readInteger_intChars (n : Int) (hlo : -2 ^ 63 ≤ n) (hhi : n < 2 ^ 63)
    (rest : List Char) :
    Gwr.readInteger (Gwr.intChars n ++ '\r' :: '\n' :: rest) = some (n, rest) := by
  have hp63n : (2 : Nat) ^ 63 = 9223372036854775808 := by norm_num
  have hp64n : (2 : Nat) ^ 64 = 18446744073709551616 := by norm_num
  by_cases hneg : n < 0
  · rw [Gwr.intChars, if_pos hneg, List.cons_append]
    have habs : n.natAbs < 2 ^ 64 := by
      rw [hp64n]
      have := hlo
      omega
    have hscan := scanNumbers_digits (Gwr.decimalChars n.natAbs)
      (decimalChars_digits n.natAbs) 0 ('\n' :: rest) (by positivity)
    rw [decimalChars_foldl n.natAbs 0] at hscan
    simp only [Nat.zero_mul, Nat.zero_add] at hscan
    rw [Nat.mod_eq_of_lt habs] at hscan
    simp only [Gwr.readInteger, if_pos rfl]
    rw [hscan]
    show some (Gwr.int64Wrap (-Gwr.uintToInt64 n.natAbs), rest) = some (n, rest)
    rw [int64_neg_natAbs n hlo hneg]
  · have hge : 0 ≤ n := le_of_not_lt hneg
    have htoNat : n.toNat < 2 ^ 63 := by
      rw [hp63n]
      omega
    rw [Gwr.intChars, if_neg hneg]
    cases hd : Gwr.decimalChars n.toNat with
    | nil => exact absurd hd (decimalChars_ne_nil n.toNat)
    | cons d0 ds =>
      have hd0 : 48 ≤ d0.toNat ∧ d0.toNat ≤ 57 := by
        apply decimalChars_digits n.toNat
        rw [hd]
        exact List.mem_cons_self d0 ds
      have hds : ∀ c ∈ ds, 48 ≤ c.toNat ∧ c.toNat ≤ 57 := by
        intro c hc
        apply decimalChars_digits n.toNat
        rw [hd]
        exact List.mem_cons_of_mem d0 hc
      have hd0dash : ¬d0 = '-' := by
        intro h
        rw [h] at hd0
        simp at hd0
      have hd0cr : ¬d0 = '\r' := by
        intro h
        rw [h] at hd0
        simp at hd0
      have hdig : (d0.toNat + 256 - 48) % 256 = d0.toNat - 48 := by omega
      have hacc : d0.toNat - 48 < 2 ^ 64 := by
        rw [hp64n]
        omega
      have hscan := scanNumbers_digits ds hds (d0.toNat - 48) ('\n' :: rest) hacc
      have hfold : ds.foldl Gwr.stepPure (d0.toNat - 48) = n.toNat := by
        have h1 : ds.foldl Gwr.stepPure (Gwr.stepPure 0 d0) = n.toNat := by
          have h2 : (Gwr.decimalChars n.toNat).foldl Gwr.stepPure 0 = n.toNat := by
            rw [decimalChars_foldl n.toNat 0]
            simp
          rw [hd] at h2
          simpa using h2
        simpa [Gwr.stepPure] using h1
      rw [List.cons_append]
      simp only [Gwr.readInteger]
      rw [if_neg hd0dash, if_neg hd0cr, hdig, hscan, hfold,
        Nat.mod_eq_of_lt (by omega)]
      show some (Gwr.uintToInt64 n.toNat, rest) = some (n, rest)
      rw [Gwr.uintToInt64, if_pos htoNat, Int.toNat_of_nonneg hge]

/-- `scanLine` on a CR-free payload followed by CRLF returns the
payload with the CR still attached, and the input after the LF. -/
theorem scanLine_no_cr :
    ∀ (s : List Char), '\r' ∉ s → ∀ rest,
      Gwr.scanLine (s ++ '\r' :: '\n' :: rest) = some (s ++ ['\r'], rest) := by
  intro s
  induction s with
  | nil => intro _ rest; rfl
  | cons c cs ih =>
    intro hs rest
    have hc : ¬c = '\r' := fun h => hs (h ▸ List.mem_cons_self c cs)
    have ihr := ih (fun h => hs (List.mem_cons_of_mem c h)) rest
    simp only [List.cons_append, Gwr.scanLine, if_neg hc, List.append_eq, ihr]

/-- One unfolding step of the `Consume` dispatch. -/
theorem consume_cons (c : Char) (rest : List Char) :
    Gwr.consume (c :: rest)
      = if c = '-' then (Gwr.scanLine rest).map (fun p => (Gwr.RValue.err p.1, p.2))
        else if c = ':' then (Gwr.readInteger rest).map (fun p => (Gwr.RValue.int p.1, p.2))
        else if c = '+' then (Gwr.scanLine rest).map (fun p => (Gwr.RValue.str p.1, p.2))
        else if c = '$' then (Gwr.readInteger rest).bind Gwr.consumeBulk
        else if c = '*' then (Gwr.readInteger rest).bind Gwr.consumeArrayHead
        else none := rfl

/-- `Consume` of a written integer yields that integer. -/
theorem consume_writeInteger (n : Int) (hlo : -2 ^ 63 ≤ n) (hhi : n < 2 ^ 63)
    (rest : List Char) :
    Gwr.consume (Gwr.writeInteger n ++ rest) = some (Gwr.RValue.int n, rest) := by
  have hxs : (Gwr.intChars n ++ Gwr.crlf) ++ rest
      = Gwr.intChars n ++ '\r' :: '\n' :: rest := by
    rw [List.append_assoc]
    rfl
  rw [Gwr.writeInteger, List.cons_append, hxs, consume_cons,
    if_neg (by decide), if_pos rfl, readInteger_intChars n hlo hhi rest]
  rfl

/-- `Consume` of the written null bulk yields a null. -/
theorem consume_writeNull (rest : List Char) :
    Gwr.consume (Gwr.writeNull ++ rest) = some (Gwr.RValue.null, rest) := rfl

/-- `Consume` of the written null array yields a null. -/
theorem consume_writeNullArray (rest : List Char) :
    Gwr.consume (Gwr.writeNullArray ++ rest) = some (Gwr.RValue.null, rest) := rfl

/-- `Consume` of a written array header yields the header count. -/
theorem consume_writeArrayHeader (n : Int) (h0 : 0 ≤ n) (hhi : n < 2 ^ 63)
    (rest : List Char) :
    Gwr.consume (Gwr.writeArrayHeader n ++ rest)
      = some (Gwr.RValue.arrayHeader n, rest) := by
  have hxs : (Gwr.intChars n ++ Gwr.crlf) ++ rest
      = Gwr.intChars n ++ '\r' :: '\n' :: rest := by
    rw [List.append_assoc]
    rfl
  rw [Gwr.writeArrayHeader, List.cons_append, hxs, consume_cons,
    if_neg (by decide), if_neg (by decide), if_neg (by decide), if_neg (by decide),
    if_pos rfl, readInteger_intChars n (le_trans (by norm_num) h0) hhi rest,
    Option.some_bind]
  show (if n < 0 then some (Gwr.RValue.null, rest)
    else some (Gwr.RValue.arrayHeader n, rest)) = some (Gwr.RValue.arrayHeader n, rest)
  rw [if_neg (not_lt.mpr h0)]

/-- `Consume` of written bulk bytes yields the exact payload. -/
theorem consume_writeBulkBytes (b : List Char) (hlen : b.length < 2 ^ 63)
    (rest : List Char) :
    Gwr.consume (Gwr.writeBulkBytes b ++ rest) = some (Gwr.RValue.bulk b, rest) := by
  have hb : Gwr.writeBulkBytes b
      = '$' :: (Gwr.decimalChars b.length ++ '\r' :: '\n' :: (b ++ ['\r', '\n'])) := by
    by_cases h : b.length = 0
    · have hbnil : b = [] := List.length_eq_zero.mp h
      subst hbnil
      rw [Gwr.writeBulkBytes, if_pos h, Gwr.decimalChars, if_pos (by norm_num)]
      rfl
    · rw [Gwr.writeBulkBytes, if_neg h]
      simp [Gwr.crlf]
  have hxs : (Gwr.decimalChars b.length ++ '\r' :: '\n' :: (b ++ ['\r', '\n'])) ++ rest
      = Gwr.decimalChars b.length ++ '\r' :: '\n' :: (b ++ '\r' :: '\n' :: rest) := by
    simp
  have hic : Gwr.intChars (b.length : Int) = Gwr.decimalChars b.length := by
    rw [Gwr.intChars, if_neg (not_lt.mpr (Int.natCast_nonneg _)), Int.toNat_natCast]
  have hri := readInteger_intChars (b.length : Int)
    (le_trans (by norm_num) (Int.natCast_nonneg _))
    (by exact_mod_cast hlen) (b ++ '\r' :: '\n' :: rest)
  rw [hic] at hri
  rw [hb, List.cons_append, hxs, consume_cons,
    if_neg (by decide), if_neg (by decide), if_neg (by decide), if_pos rfl,
    hri, Option.some_bind]
  show (if (b.length : Int) < 0 then some (Gwr.RValue.null, b ++ '\r' :: '\n' :: rest)
    else if (b ++ '\r' :: '\n' :: rest).length < ((b.length : Int)).toNat then none
    else
      match (b ++ '\r' :: '\n' :: rest).drop ((b.length : Int)).toNat with
      | '\r' :: '\n' :: r2 =>
        some (Gwr.RValue.bulk ((b ++ '\r' :: '\n' :: rest).take ((b.length : Int)).toNat), r2)
      | _ => none) = some (Gwr.RValue.bulk b, rest)
  rw [if_neg (not_lt.mpr (Int.natCast_nonneg _)), Int.toNat_natCast,
    if_neg (by simp only [List.length_append, List.length_cons]; omega),
    List.drop_left, List.take_left]
  rfl

/-- `Consume` of a written simple string yields the payload with its CR
delimiter still attached. -/
theorem consume_writeSimpleString (s : List Char) (hs : '\r' ∉ s) (rest : List Char) :
    Gwr.consume (Gwr.writeSimpleString s ++ rest)
      = some (Gwr.RValue.str (s ++ ['\r']), rest) := by
  have hxs : (s ++ Gwr.crlf) ++ rest = s ++ '\r' :: '\n' :: rest := by
    rw [List.append_assoc]
    rfl
  rw [Gwr.writeSimpleString, List.cons_append, hxs, consume_cons,
    if_neg (by decide), if_neg (by decide), if_pos rfl, scanLine_no_cr s hs rest]
  rfl

/-- `Consume` of a written error yields the payload with its CR
delimiter still attached. -/
theorem consume_writeErrorBytes (b : List Char) (hb : '\r' ∉ b) (rest : List Char) :
    Gwr.consume (Gwr.writeErrorBytes b ++ rest)
      = some (Gwr.RValue.err (b ++ ['\r']), rest) := by
  have hxs : (b ++ Gwr.crlf) ++ rest = b ++ '\r' :: '\n' :: rest := by
    rw [List.append_assoc]
    rfl
  rw [Gwr.writeErrorBytes, List.cons_append, hxs, consume_cons,
    if_pos rfl, scanLine_no_cr b hb rest]
  rfl

/-- C8 counterexample: `WriteSimpleString "a"` produces `+a\r\n`, but
feeding those bytes to `Consume` hands the handler the payload `"a\r"`
— the CR delimiter included, because `scanLine` returns the
`ReadBytes('\r')` buffer without trimming — not the payload `"a"` the
claim states. -/
theorem resp_simple_string_keeps_cr :
    Gwr.consume (Gwr.writeSimpleString ['a']) = some (Gwr.RValue.str ['a', '\r'], []) ∧
    Gwr.consume (Gwr.writeSimpleString ['a']) ≠ some (Gwr.RValue.str ['a'], []) := by
  refine ⟨rfl, ?_⟩
  decide

/-- C8 (amended): every RESP value produced by the writer operations
parses back under the reader operations, with one qualification: the
payload of a simple string or error comes back with the terminating CR
appended (`scanLine` keeps the delimiter), so `WriteSimpleString s`
parses to the payload `s ++ "\r"` (for CR-free `s`), and likewise for
errors.  Integers in the int64 range (negatives included), bulk
strings/bytes of any payload, the null bulk, the null array, and array
headers round-trip exactly, leaving any following bytes untouched. -/
theorem resp_writer_reader_roundtrip :
    (∀ (n : Int) (rest : List Char), -2 ^ 63 ≤ n → n < 2 ^ 63 →
      Gwr.consume (Gwr.writeInteger n ++ rest) = some (Gwr.RValue.int n, rest)) ∧
    (∀ (b : List Char) (rest : List Char), b.length < 2 ^ 63 →
      Gwr.consume (Gwr.writeBulkBytes b ++ rest) = some (Gwr.RValue.bulk b, rest)) ∧
    (∀ rest, Gwr.consume (Gwr.writeNull ++ rest) = some (Gwr.RValue.null, rest)) ∧
    (∀ rest, Gwr.consume (Gwr.writeNullArray ++ rest) = some (Gwr.RValue.null, rest)) ∧
    (∀ (n : Int) (rest : List Char), 0 ≤ n → n < 2 ^ 63 →
      Gwr.consume (Gwr.writeArrayHeader n ++ rest)
        = some (Gwr.RValue.arrayHeader n, rest)) ∧
    (∀ (s : List Char) (rest : List Char), '\r' ∉ s →
      Gwr.consume (Gwr.writeSimpleString s ++ rest)
        = some (Gwr.RValue.str (s ++ ['\r']), rest)) ∧
    (∀ (b : List Char) (rest : List Char), '\r' ∉ b →
      Gwr.consume (Gwr.writeErrorBytes b ++ rest)
        = some (Gwr.RValue.err (b ++ ['\r']), rest)) :=
  ⟨fun n rest h1 h2 => consume_writeInteger n h1 h2 rest,
   fun b rest h => consume_writeBulkBytes b h rest,
   consume_writeNull, consume_writeNullArray,
   fun n rest h1 h2 => consume_writeArrayHeader n h1 h2 rest,
   fun s rest h => consume_writeSimpleString s h rest,
   fun b rest h => consume_writeErrorBytes b h rest⟩

/-- Witness for C8's amended theorem at concrete values of each kind. -/
theorem resp_writer_reader_roundtrip_witness :
    Gwr.consume (Gwr.writeInteger (-5) ++ []) = some (Gwr.RValue.int (-5), []) ∧
    Gwr.consume (Gwr.writeBulkBytes ['x'] ++ []) = some (Gwr.RValue.bulk ['x'], []) ∧
    Gwr.consume (Gwr.writeNull ++ []) = some (Gwr.RValue.null, []) ∧
    Gwr.consume (Gwr.writeNullArray ++ []) = some (Gwr.RValue.null, []) ∧
    Gwr.consume (Gwr.writeArrayHeader 2 ++ []) = some (Gwr.RValue.arrayHeader 2, []) ∧
    Gwr.consume (Gwr.writeSimpleString ['o', 'k'] ++ [])
      = some (Gwr.RValue.str (['o', 'k'] ++ ['\r']), []) ∧
    Gwr.consume (Gwr.writeErrorBytes ['E'] ++ [])
      = some (Gwr.RValue.err (['E'] ++ ['\r']), []) :=
  ⟨resp_writer_reader_roundtrip.1 (-5) [] (by norm_num) (by norm_num),
   resp_writer_reader_roundtrip.2.1 ['x'] [] (by norm_num),
   resp_writer_reader_roundtrip.2.2.1 [],
   resp_writer_reader_roundtrip.2.2.2.1 [],
   resp_writer_reader_roundtrip.2.2.2.2.1 2 [] (by norm_num) (by norm_num),
   resp_writer_reader_roundtrip.2.2.2.2.2.1 ['o', 'k'] [] (by decide),
   resp_writer_reader_roundtrip.2.2.2.2.2.2 ['E'] [] (by decide)⟩
